import Mathlib

/-!
Verification of the GNSS_RR calibrated time-series core (functions.py).

The series processed by `filter_rtklib_solutions` and `filter_gnssir` are
pandas Series over a sorted `DatetimeIndex` with pairwise-distinct
timestamps (both functions sort, and the reflectometry reader drops
duplicate indices).  We embed such a series as a list of
(timestamp, value) pairs in index order, timestamps as naturals.
Label-based pandas operations (`u[u.index >= t]`, `u[:t]`, `u.drop(t)`)
are embedded by their order semantics on the sorted index.

The discontinuity corrector uses only subtraction and order comparisons on
the measurement values, so it is embedded over ℤ (every concrete series of
the specification is integral in mm, and the statements proved below are
uniform in the value arithmetic); the density, outlier-filter and
error-propagation stages, which genuinely divide and take square roots,
are embedded over ℚ and ℝ further down.
-/

/-- A measurement series: (timestamp, value) pairs in index order. -/
abbrev Series := List (ℕ × ℤ)

/-- Consecutive observation pairs, keyed like `pandas.Series.diff`: one entry
`(t_i, v_(i-1), v_i)` per index position `i ≥ 1`. -/
def consTriples : Series → List (ℕ × ℤ × ℤ)
  | [] => []
  | [_] => []
  | p :: q :: rest => (q.1, p.2, q.2) :: consTriples (q :: rest)

/-- `u.diff()` restricted to its non-NaN entries: the value at index `t_i`
is `v_i - v_(i-1)` (the NaN at the first index never passes a `<`/`>` mask,
so dropping it is faithful for every filter below). -/
def diffsT (u : Series) : List (ℕ × ℤ) :=
  (consTriples u).map (fun x => (x.1, x.2.2 - x.2.1))

/-- `u[t]`: the value at label `t` (0 when absent; all uses have `t` present). -/
def valAt (u : Series) (t : ℕ) : ℤ :=
  ((u.filter (fun p => decide (p.1 = t))).map Prod.snd).headD 0

/-- `u[:t][-2]`: the second-to-last value of the inclusive prefix up to label
`t`, i.e. the value immediately before the observation at `t`. -/
def beforeVal (u : Series) (t : ℕ) : ℤ :=
  ((u.filter (fun p => decide (p.1 ≤ t))).map Prod.snd).reverse.getD 1 0

/-- One correction step of the mast-heightening loop:
`pd.concat([u[~(u.index >= t)], u[u.index >= t] - jv])` — subtract `jv`
from every observation at or after label `t` (on a sorted index the concat
is exactly this map). -/
def correctFrom (u : Series) (t : ℕ) (jv : ℤ) : Series :=
  u.map (fun p => if t ≤ p.1 then (p.1, p.2 - jv) else p)

/-- `u.diff()[(u.diff() > T)]` — the positive-jump list of `filter_gnssir`
(source threshold 2500 mm, kept as the parameter `T`). -/
def jumpListUp (T : ℤ) (u : Series) : List (ℕ × ℤ) :=
  (diffsT u).filter (fun p => decide (T < p.2))

/-- `u.diff()[(u.diff() < -T)]` — the negative-jump list of
`filter_rtklib_solutions` (source threshold 1000 mm, kept as `T`). -/
def jumpListDown (T : ℤ) (u : Series) : List (ℕ × ℤ) :=
  (diffsT u).filter (fun p => decide (p.2 < -T))

/-- Ceiling division for nonnegative numerator and positive denominator,
used only for the loop-fuel bounds below. -/
def ceilDiv (x y : ℤ) : ℕ := ((x + y - 1) / y).toNat

/-- Fuel that bounds the `while jump.empty is False` loop of `filter_gnssir`:
each iteration lowers the first excess difference by `jv > T`, so each excess
difference `d` is corrected after at most `⌈(d - T)/jv⌉` iterations. -/
def iterBoundUp (T jv : ℤ) (u : Series) : ℕ :=
  ((diffsT u).map (fun p => if T < p.2 then ceilDiv (p.2 - T) jv else 0)).sum + 1

/-- Fuel for the mirrored loop of `filter_rtklib_solutions` (each iteration
raises the first difference below `-T` by `-jv > T`). -/
def iterBoundDown (T jv : ℤ) (u : Series) : ℕ :=
  ((diffsT u).map (fun p => if p.2 < -T then ceilDiv (-T - p.2) (-jv) else 0)).sum + 1

/-- The `while jump.empty is False` loop of `filter_gnssir`: while a
difference exceeds `T`, subtract `jv` from everything at or after the first
such index.  `jv` is the magnitude computed ONCE before the loop (the source
never recomputes `jump_val` inside the loop). -/
def loopUp (T jv : ℤ) : ℕ → Series → Series
  | 0, u => u
  | f + 1, u =>
    match jumpListUp T u with
    | [] => u
    | p :: _ => loopUp T jv f (correctFrom u p.1 jv)

/-- The `while jump.empty is False` loop of `filter_rtklib_solutions`. -/
def loopDown (T jv : ℤ) : ℕ → Series → Series
  | 0, u => u
  | f + 1, u =>
    match jumpListDown T u with
    | [] => u
    | p :: _ => loopDown T jv f (correctFrom u p.1 jv)

/-- The snow-mast jump-correction step of `filter_gnssir`.  The source reads
`jump_ind = jump.index.format()[0]` and `jump_val = u[jump_ind] - u[:jump_ind][-2]`
BEFORE testing `jump.empty`, so an input without any difference above the
threshold raises `IndexError` — embedded as `none`. -/
def filter_gnssir_jumpcorr (T : ℤ) (u : Series) : Option Series :=
  match jumpListUp T u with
  | [] => none
  | p :: _ =>
    some (loopUp T (valAt u p.1 - beforeVal u p.1)
      (iterBoundUp T (valAt u p.1 - beforeVal u p.1) u) u)

/-- `u[u.index > t].head(1)`: the observation directly after label `t`. -/
def nextAfter (u : Series) (t : ℕ) : Option (ℕ × ℤ) :=
  (u.filter (fun p => decide (t < p.1))).head?

/-- `u.drop(t)`: remove the observation at label `t`. -/
def dropAt (u : Series) (t : ℕ) : Series :=
  u.filter (fun p => decide (p.1 ≠ t))

/-- `u[(u.diff() > T)]`: the positive-excursion candidates of
`filter_rtklib_solutions` (each with its own value). -/
def posCands (T : ℤ) (u : Series) : List (ℕ × ℤ) :=
  ((consTriples u).filter (fun x => decide (T < x.2.2 - x.2.1))).map
    (fun x => (x.1, x.2.2))

/-- `u[(u.diff() < -T)]`: the negative-excursion candidates of
`filter_rtklib_solutions`. -/
def negCands (T : ℤ) (u : Series) : List (ℕ × ℤ) :=
  ((consTriples u).filter (fun x => decide (x.2.2 - x.2.1 < -T))).map
    (fun x => (x.1, x.2.2))

/-- The first outlier pass of `filter_rtklib_solutions`: for each positive
candidate (taken from the ORIGINAL series), look at the next observation in
the CURRENT series; `next_line[0]` on an empty tail raises `IndexError`
(embedded as `none`); if the next value falls back below `value - T`, the
candidate is dropped as a transient outlier. -/
def goPos (T : ℤ) : List (ℕ × ℤ) → Series → Option Series
  | [], u => some u
  | c :: rest, u =>
    match nextAfter u c.1 with
    | none => none
    | some q => if q.2 < c.2 - T then goPos T rest (dropAt u c.1) else goPos T rest u

/-- The second outlier pass (negative excursions whose next value returns
back above `value + T`). -/
def goNeg (T : ℤ) : List (ℕ × ℤ) → Series → Option Series
  | [], u => some u
  | c :: rest, u =>
    match nextAfter u c.1 with
    | none => none
    | some q => if c.2 + T < q.2 then goNeg T rest (dropAt u c.1) else goNeg T rest u

/-- The discontinuity-correction step of `filter_rtklib_solutions`: the two
transient-outlier passes, then the negative-jump loop.  As in the source,
`jump.index.format()[0]` is read before `jump.empty` is tested, so a series
with no remaining difference below `-T` raises `IndexError` (`none`). -/
def filter_rtklib_jumpcorr (T : ℤ) (u : Series) : Option Series :=
  Option.bind (goPos T (posCands T u) u) (fun u1 =>
    Option.bind (goNeg T (negCands T u1) u1) (fun u2 =>
      match jumpListDown T u2 with
      | [] => none
      | p :: _ =>
        some (loopDown T (valAt u2 p.1 - beforeVal u2 p.1)
          (iterBoundDown T (valAt u2 p.1 - beforeVal u2 p.1) u2) u2)))

/-- The step as hard-coded in `filter_rtklib_solutions` (threshold 1000 mm,
negative-going jumps). -/
def rtklibStep : Series → Option Series := filter_rtklib_jumpcorr 1000

/-- The step as hard-coded in `filter_gnssir` (threshold 2500 mm,
positive-going jumps). -/
def gnssirStep : Series → Option Series := filter_gnssir_jumpcorr 2500

/-- A sorted index with pairwise-distinct timestamps. -/
def sortedSeries (u : Series) : Prop :=
  (u.map Prod.fst).Pairwise (· < ·)

instance (u : Series) : Decidable (sortedSeries u) := by
  unfold sortedSeries
  infer_instance

/-! ### Robust outlier filter (filter_rtklib_solutions / filter_gnssir)

`u.rolling('3D')` over a sorted `DatetimeIndex`: at each observation the
window holds every observation whose timestamp lies in the trailing
interval `(t - W, t]`.  The rolling median is defined from one point on;
the rolling standard deviation (`ddof=1`) is NaN for a window of fewer
than two points, and a NaN bound fails both comparisons of the mask
`(u > lower) & (u < upper)`.  Values are ℚ, the standard deviation ℝ. -/

/-- A rational-valued measurement series. -/
abbrev QSeries := List (ℕ × ℚ)

/-- Insertion into a sorted list (ascending). -/
def insertSorted (x : ℚ) : List ℚ → List ℚ
  | [] => [x]
  | y :: ys => if x ≤ y then x :: y :: ys else y :: insertSorted x ys

/-- Insertion sort (ascending) — the sort underlying the median. -/
def sortQ : List ℚ → List ℚ
  | [] => []
  | x :: xs => insertSorted x (sortQ xs)

/-- The statistical median as pandas computes it: middle element of the
sorted values, or the mean of the two middle elements. -/
def medianQ (l : List ℚ) : ℚ :=
  if l.length % 2 = 1 then (sortQ l).getD (l.length / 2) 0
  else ((sortQ l).getD (l.length / 2 - 1) 0 + (sortQ l).getD (l.length / 2) 0) / 2

/-- Arithmetic mean. -/
def meanQ (l : List ℚ) : ℚ := l.sum / l.length

/-- Sample variance (`ddof=1`), defined for two or more values. -/
def varQ (l : List ℚ) : ℚ :=
  ((l.map (fun x => (x - meanQ l) ^ 2)).sum) / ((l.length : ℚ) - 1)

/-- Sample standard deviation: NaN (`none`) for fewer than two values. -/
noncomputable def stdOpt (l : List ℚ) : Option ℝ :=
  if l.length < 2 then none else some (Real.sqrt ((varQ l : ℚ) : ℝ))

/-- The values in the trailing window `(t - W, t]` of the series. -/
def windowAt (W : ℕ) (u : QSeries) (t : ℕ) : List ℚ :=
  (u.filter (fun p => decide (t < p.1 + W) && decide (p.1 ≤ t))).map Prod.snd

/-- The mask `(u > median - k*std) & (u < median + k*std)` at one
observation; `False` when the rolling std is NaN. -/
noncomputable def keepPoint (W : ℕ) (k : ℝ) (u : QSeries) (p : ℕ × ℚ) : Prop :=
  match stdOpt (windowAt W u p.1) with
  | none => False
  | some s =>
    ((medianQ (windowAt W u p.1) : ℚ) : ℝ) - k * s < ((p.2 : ℚ) : ℝ)
      ∧ ((p.2 : ℚ) : ℝ) < ((medianQ (windowAt W u p.1) : ℚ) : ℝ) + k * s

/-- `u_clean = u[(u > lower_limit) & (u < upper_limit)]` with
`lower, upper = rolling median ∓ threshold * rolling std`. -/
noncomputable def filter_rolling_sigma (W : ℕ) (k : ℝ) (u : QSeries) : QSeries :=
  u.filter (fun p => @decide (keepPoint W k u p) (Classical.propDecidable _))

/-! ### Aggregator/resampler (daily buckets)

`swe_gnss.resample('D').median()` / `.resample('D').std()` produce one row
per calendar day from the day of the first observation to the day of the
last, an empty day holding NaN; `resample_gnss` additionally calls
`.dropna()`.  Timestamps are minutes, a day is 1440 minutes. -/

/-- The calendar day of a timestamp (minutes since epoch). -/
def dayOf (t : ℕ) : ℕ := t / 1440

/-- All values observed on calendar day `d`. -/
def bucketVals (u : QSeries) (d : ℕ) : List ℚ :=
  (u.filter (fun p => decide (dayOf p.1 = d))).map Prod.snd

/-- The calendar day of the first observation (series sorted by time). -/
def firstDay (u : QSeries) : ℕ := dayOf (u.headD (0, 0)).1

/-- The calendar day of the last observation. -/
def lastDay (u : QSeries) : ℕ := dayOf (u.getLastD (0, 0)).1

/-- Bucket median: NaN (`none`) for an empty bucket. -/
def medianOpt (l : List ℚ) : Option ℚ :=
  match l with
  | [] => none
  | _ => some (medianQ l)

/-- The daily aggregation of `filter_rtklib_solutions`: for every calendar
day spanned by the series, the bucket median (`swe_gnss_daily`) and bucket
standard deviation (`std_gnss_daily`); empty buckets keep a row with NaN. -/
noncomputable def resampleDaily (u : QSeries) : List (ℕ × Option ℚ × Option ℝ) :=
  match u with
  | [] => []
  | _ :: _ =>
    (List.range (lastDay u + 1 - firstDay u)).map
      (fun i => (firstDay u + i,
        medianOpt (bucketVals u (firstDay u + i)),
        stdOpt (bucketVals u (firstDay u + i))))

/-- The median rows alone (the frame `resample_gnss` builds before `dropna`). -/
def resampleDailyMedian (u : QSeries) : List (ℕ × Option ℚ) :=
  match u with
  | [] => []
  | _ :: _ =>
    (List.range (lastDay u + 1 - firstDay u)).map
      (fun i => (firstDay u + i, medianOpt (bucketVals u (firstDay u + i))))

/-- `resample_gnss`: `(gnss.resample('D').median()).dropna()` — the daily
medians with the NaN rows removed. -/
def resample_gnss (u : QSeries) : QSeries :=
  (resampleDailyMedian u).filterMap
    (fun p => match p.2 with
      | none => none
      | some v => some (p.1, v))

/-! ### Cross-sensor density estimator (convert_swesh2density)

`density = ((swe * 1000).divide(sh, axis=0)).dropna()` followed by
`density[~((density < 50) | (density >= 830))]`.  Float division of a
nonzero numerator by zero yields ±inf (which `dropna` does NOT remove),
0/0 and any operation with NaN yield NaN (which it does).  `FVal` is a
float value that is not NaN; NaN is `none` at the `Option` level. -/

/-- A non-NaN float value: a finite rational or a signed infinity. -/
inductive FVal where
  | real : ℚ → FVal
  | posInf : FVal
  | negInf : FVal
deriving DecidableEq

/-- IEEE division for finite operands: `x/0` is ±inf for `x ≠ 0` and NaN
(`none`) for `x = 0`. -/
def fdiv (a b : ℚ) : Option FVal :=
  if b = 0 then
    (if a = 0 then none else if 0 < a then some FVal.posInf else some FVal.negInf)
  else some (FVal.real (a / b))

/-- IEEE `x < c` for a finite literal `c`. -/
def fLtC (x : FVal) (c : ℚ) : Bool :=
  match x with
  | FVal.real q => decide (q < c)
  | FVal.posInf => false
  | FVal.negInf => true

/-- IEEE `x >= c` for a finite literal `c`. -/
def fGeC (x : FVal) (c : ℚ) : Bool :=
  match x with
  | FVal.real q => decide (c ≤ q)
  | FVal.posInf => true
  | FVal.negInf => false

/-- An optional-valued series: `none` is a stored NaN (`missing`). -/
abbrev OptSeries := List (ℕ × Option ℚ)

/-- The union of the two frames' bucket indices (pandas aligns `divide` on
the index union; the order of the union is irrelevant to every statement
below). -/
def keysUnion (swe sh : OptSeries) : List ℕ :=
  ((swe.map Prod.fst) ++ (sh.map Prod.fst)).dedup

/-- One bucket of `(swe * 1000).divide(sh, axis=0)`: `swe*1000 / sh` when
both sides hold a stored value, NaN when either side is absent or NaN. -/
def densityCell (swe sh : OptSeries) (t : ℕ) : Option FVal :=
  match List.lookup t swe, List.lookup t sh with
  | some (some a), some (some b) => fdiv (a * 1000) b
  | _, _ => none

/-- `(swe * 1000).divide(sh, axis=0)`: the bucketwise division on the
aligned index union. -/
def densityRaw (swe sh : OptSeries) : List (ℕ × Option FVal) :=
  (keysUnion swe sh).map (fun t => (t, densityCell swe sh t))

/-- `.dropna()`: remove the NaN buckets (±inf survives). -/
def densityDropna (swe sh : OptSeries) : List (ℕ × FVal) :=
  (densityRaw swe sh).filterMap (fun p =>
    match p.2 with
    | none => none
    | some v => some (p.1, v))

/-- `convert_swesh2density`: divide, drop NaN, then discard every density
below the new-snow floor (50 kg/m3) or at/above the firn ceiling
(830 kg/m3): `density_fil[~((density_fil < 50) | (density_fil >= 830))]`. -/
def convert_swesh2density (swe sh : OptSeries) : List (ℕ × FVal) :=
  (densityDropna swe sh).filter (fun p => !(fLtC p.2 50 || fGeC p.2 830))

/-! ### Uncertainty propagation (func_err_prop_single / func_err_prop) -/

/-- `func_exp(x, a, b, c) = a * np.exp(b * x) + c`. -/
noncomputable def func_exp (x a b c : ℝ) : ℝ := a * Real.exp (b * x) + c

/-- `np.linspace(0, 10, 1001)`: the dense regular height grid, step 0.01 m. -/
noncomputable def errGrid (i : ℕ) : ℝ := 10 * i / 1000

/-- One row of the error frame: height, relative error, absolute error. -/
structure ErrRow where
  h : ℝ
  rel : ℝ
  abs : ℝ

instance : Inhabited ErrRow := ⟨⟨0, 0, 0⟩⟩

/-- `func_err_prop_single(a, b, c, m_err, h_err)`: over the height grid,
`m = func_exp(h, a, b, c)`, `density = m/h`,
`rel_err = sqrt((m_err/m)**2 + (h_err/h)**2)`, `abs_err = rel_err * density`. -/
noncomputable def func_err_prop_single (a b c m_err h_err : ℝ) : List ErrRow :=
  (List.range 1001).map (fun i =>
    let hgt := errGrid i
    let m := func_exp hgt a b c
    let density := m / hgt
    let rel_err := Real.sqrt ((m_err / m) ^ 2 + (h_err / hgt) ^ 2)
    { h := hgt, rel := rel_err, abs := rel_err * density })

/-- `func_err_prop`: the four single error frames, concatenated column-wise
on the shared height index (`pd.concat(..., axis=1)`). -/
noncomputable def func_err_prop
    (a b c m_err1 m_err2 m_err3 m_err4 h_err1 h_err2 h_err3 h_err4 : ℝ) :
    List (ErrRow × ErrRow × ErrRow × ErrRow) :=
  (func_err_prop_single a b c m_err1 h_err1).zip
    ((func_err_prop_single a b c m_err2 h_err2).zip
      ((func_err_prop_single a b c m_err3 h_err3).zip
        (func_err_prop_single a b c m_err4 h_err4)))

/-- The specification's error model, written from its own words:
`rel_err(h) = sqrt((sigma_m / mass(h))^2 + (sigma_h / h)^2)` with
`mass(h) = a*exp(b*h) + c`. -/
noncomputable def spec_rel_err (a b c sm sh hgt : ℝ) : ℝ :=
  Real.sqrt ((sm / (a * Real.exp (b * hgt) + c)) ^ 2 + (sh / hgt) ^ 2)

/-- The specification's density at height `h`: `mass(h) / h`. -/
noncomputable def spec_density (a b c hgt : ℝ) : ℝ :=
  (a * Real.exp (b * hgt) + c) / hgt

/-! ### Parametric curve fitter (exponential_regression)

`scipy.optimize.curve_fit` is third-party code outside this repository; it
is embedded as an oracle argument of type `Except FitError (List ℝ)`:
`Except.error` is the `RuntimeError` ("Optimal parameters not found") or
`TypeError` (too few points) the optimizer raises, which
`exponential_regression` does not catch.  The recognized `function`
strings select the model; any other string returns the literal zero result
`[0, 0, 0]`. -/

/-- The typed error the optimizer raises when it cannot converge. -/
inductive FitError where
  | runtimeError : FitError
deriving DecidableEq

/-- The value `exponential_regression` produces: a real fit
`[x_data, fit, popt]`, the zero result `[0, 0, 0]` of the unrecognized-
function branch, or an uncaught optimizer exception. -/
inductive ExpRegResult where
  | fitParams : List ℝ → List ℝ → List ℝ → ExpRegResult
  | zeroModel : ExpRegResult
  | raised : FitError → ExpRegResult

/-- `func_exp2(x, a, b) = a * np.exp(b * x)`. -/
noncomputable def func_exp2 (x a b : ℝ) : ℝ := a * Real.exp (b * x)

/-- `func_exp3(x, std) = std / np.sqrt(x)`. -/
noncomputable def func_exp3 (x std : ℝ) : ℝ := std / Real.sqrt x

/-- `exponential_regression(title, x_data, y_data, function, ...)`: branch
on the `function` string, run the optimizer (an uncaught exception
propagates), evaluate the fitted model on `x_data` and return
`[x_data, fit, popt]`; an unrecognized `function` returns `[0, 0, 0]`. -/
noncomputable def exponential_regression (function : String)
    (curve_fit : Except FitError (List ℝ)) (x_data : List ℝ) : ExpRegResult :=
  if function = ("a * exp(b * x) + c") then
    match curve_fit with
    | Except.error e => ExpRegResult.raised e
    | Except.ok popt =>
      ExpRegResult.fitParams x_data
        (x_data.map (fun x => func_exp x (popt.getD 0 0) (popt.getD 1 0) (popt.getD 2 0))) popt
  else if function = ("a * exp(b * x)") then
    match curve_fit with
    | Except.error e => ExpRegResult.raised e
    | Except.ok popt =>
      ExpRegResult.fitParams x_data
        (x_data.map (fun x => func_exp2 x (popt.getD 0 0) (popt.getD 1 0))) popt
  else if function = ("std/sqrt(n)") then
    match curve_fit with
    | Except.error e => ExpRegResult.raised e
    | Except.ok popt =>
      ExpRegResult.fitParams x_data
        (x_data.map (fun x => func_exp3 x (popt.getD 0 0))) popt
  else ExpRegResult.zeroModel

/-! ### Concrete series of the specification's examples -/

/-- The spec's jump-correction example series `[0,1,2,3,1003,1004,1005]`. -/
def exJump : Series := [(0, 0), (1, 1), (2, 2), (3, 3), (4, 1003), (5, 1004), (6, 1005)]

/-- The spec's transient-outlier example series `[10,11,2000,12,13]`. -/
def exOutlier : Series := [(0, 10), (1, 11), (2, 2000), (3, 12), (4, 13)]

/-- Two genuine jumps in immediate succession with different magnitudes
(-2000 at index 1, -3000 at index 2). -/
def exTwoJumps : Series := [(0, 5000), (1, 3000), (2, 0), (3, 0)]

/-- A three-observation series spanning two calendar days (minutes 0, 1440
and 1450), for the aggregation witness. -/
def exDaily : QSeries := [(0, 1), (1440, 2), (1450, 4)]

/-! ## Lemmas about the discontinuity corrector -/

lemma diffsT_nil : diffsT [] = [] := rfl

lemma diffsT_single (p : ℕ × ℤ) : diffsT [p] = [] := rfl

lemma diffsT_cons_cons (p q : ℕ × ℤ) (rest : Series) :
    diffsT (p :: q :: rest) = (q.1, q.2 - p.2) :: diffsT (q :: rest) := rfl

lemma correctFrom_cons (p : ℕ × ℤ) (l : Series) (t : ℕ) (jv : ℤ) :
    correctFrom (p :: l) t jv =
      (if t ≤ p.1 then (p.1, p.2 - jv) else p) :: correctFrom l t jv := by
  simp [correctFrom]

lemma diffsT_map_fst : ∀ u : Series, (diffsT u).map Prod.fst = (u.map Prod.fst).tail
  | [] => rfl
  | [_] => rfl
  | p :: q :: rest => by
    rw [diffsT_cons_cons, List.map_cons, diffsT_map_fst (q :: rest)]
    simp

lemma mem_keys_of_mem_diffsT {u : Series} {t : ℕ} {d : ℤ} (h : (t, d) ∈ diffsT u) :
    t ∈ u.map Prod.fst := by
  have h1 : t ∈ (diffsT u).map Prod.fst := List.mem_map_of_mem Prod.fst h
  rw [diffsT_map_fst] at h1
  exact List.mem_of_mem_tail h1

lemma sorted_tail {p : ℕ × ℤ} {l : Series} (h : sortedSeries (p :: l)) :
    sortedSeries l := by
  unfold sortedSeries at *
  rw [List.map_cons, List.pairwise_cons] at h
  exact h.2

lemma sorted_head_lt {p : ℕ × ℤ} {l : Series} (h : sortedSeries (p :: l)) :
    ∀ q ∈ l, p.1 < q.1 := by
  unfold sortedSeries at h
  rw [List.map_cons, List.pairwise_cons] at h
  intro q hq
  exact h.1 q.1 (List.mem_map_of_mem Prod.fst hq)

lemma keys_nodup_val_eq {l : List (ℕ × ℤ)} (h : (l.map Prod.fst).Nodup)
    {a : ℕ} {b c : ℤ} (hb : (a, b) ∈ l) (hc : (a, c) ∈ l) : b = c := by
  induction l with
  | nil => cases hb
  | cons x xs ih =>
    rw [List.map_cons, List.nodup_cons] at h
    rcases List.mem_cons.mp hb with hbx | hb'
    · rcases List.mem_cons.mp hc with hcx | hc'
      · rw [← hbx] at hcx
        exact (Prod.mk.injEq _ _ _ _ ▸ hcx).2.symm
      · exfalso
        apply h.1
        have ha : x.1 = a := by rw [← hbx]
        rw [ha]
        exact List.mem_map_of_mem Prod.fst hc'
    · rcases List.mem_cons.mp hc with hcx | hc'
      · exfalso
        apply h.1
        have ha : x.1 = a := by rw [← hcx]
        rw [ha]
        exact List.mem_map_of_mem Prod.fst hb'
      · exact ih h.2 hb' hc'

lemma diffsT_keys_nodup {u : Series} (h : sortedSeries u) :
    ((diffsT u).map Prod.fst).Nodup := by
  rw [diffsT_map_fst]
  exact (h.tail).imp ne_of_lt

lemma consTriples_mem_snd : ∀ {u : Series} {x : ℕ × ℤ × ℤ},
    x ∈ consTriples u → (x.1, x.2.2) ∈ u
  | [], x, hx => by cases hx
  | [_], x, hx => by cases hx
  | p :: q :: rest, x, hx => by
    rcases List.mem_cons.mp hx with hhd | htl
    · rw [hhd]
      exact List.mem_cons_of_mem p (List.mem_cons_self q rest)
    · exact List.mem_cons_of_mem p (consTriples_mem_snd htl)

lemma diffsT_mem_cons {p : ℕ × ℤ} {l : Series} {x : ℕ × ℤ} (h : x ∈ diffsT l) :
    x ∈ diffsT (p :: l) := by
  cases l with
  | nil => cases h
  | cons q l' =>
    rw [diffsT_cons_cons]
    exact List.mem_cons_of_mem _ h

/-- Claim C2's code bug, evaluated: with threshold 500 (and likewise with the
hard-coded 1000), the first outlier pass of `filter_rtklib_solutions` does
drop the transient point 2000 from `[10,11,2000,12,13]`, but the whole
discontinuity-correction step then raises `IndexError` (= `none`) instead of
returning the cleaned series. -/
theorem claim_C2 :
    goPos 500 (posCands 500 exOutlier) exOutlier
        = some [(0, 10), (1, 11), (3, 12), (4, 13)]
      ∧ filter_rtklib_jumpcorr 500 exOutlier = none
      ∧ rtklibStep exOutlier = none := by decide

/-- Claim C3's code bug, evaluated: on two successive jumps of magnitudes
-2000 (index 1) and -3000 (index 2), `filter_rtklib_solutions` corrects the
second jump with the FIRST jump's magnitude (`jump_val` is never recomputed
inside the loop), returning `[5000,5000,4000,4000]` with a residual -1000
step, not `[5000,5000,5000,5000]` as independent correction would give. -/
theorem claim_C3 :
    rtklibStep exTwoJumps = some [(0, 5000), (1, 5000), (2, 4000), (3, 4000)]
      ∧ jumpListDown 1000 exTwoJumps = [(1, -2000), (2, -3000)]
      ∧ valAt exTwoJumps 2 - beforeVal exTwoJumps 2 = -3000
      ∧ rtklibStep exTwoJumps
          ≠ some [(0, 5000), (1, 5000), (2, 5000), (3, 5000)] := by decide

/-- Claim C4's code bug, evaluated: the reflector corrector maps
`[(0,0),(1,3000)]` to `[(0,0),(1,0)]`, but re-running it on that output
raises `IndexError` (= `none`) — the pre-loop `jump.index.format()[0]`
indexes an empty jump list — instead of returning the output unchanged. -/
theorem claim_C4 :
    gnssirStep [(0, 0), (1, 3000)] = some [(0, 0), (1, 0)]
      ∧ gnssirStep [(0, 0), (1, 0)] = none := by decide

lemma diffsT_correctFrom (jv : ℤ) :
    ∀ (u : Series) (t : ℕ), sortedSeries u →
      (t ∈ u.map Prod.fst ∨ ∀ s ∈ u.map Prod.fst, t ≤ s) →
      diffsT (correctFrom u t jv) =
        (diffsT u).map (fun p => if p.1 = t then (p.1, p.2 - jv) else p)
  | [], t, _, _ => rfl
  | [p], t, _, _ => by
    by_cases h : t ≤ p.1 <;> simp [correctFrom, diffsT, consTriples, h]
  | p :: q :: rest, t, hs, ht => by
    have hpq : p.1 < q.1 := sorted_head_lt hs q (List.mem_cons_self q rest)
    have hs' : sortedSeries (q :: rest) := sorted_tail hs
    have e1 : correctFrom (p :: q :: rest) t jv
        = (if t ≤ p.1 then (p.1, p.2 - jv) else p)
          :: (if t ≤ q.1 then (q.1, q.2 - jv) else q) :: correctFrom rest t jv := by
      simp [correctFrom]
    have e2 : (if t ≤ q.1 then (q.1, q.2 - jv) else q) :: correctFrom rest t jv
        = correctFrom (q :: rest) t jv := by
      simp [correctFrom]
    rw [e1, diffsT_cons_cons, diffsT_cons_cons, List.map_cons, e2]
    by_cases hp : t ≤ p.1
    · have hq : t ≤ q.1 := le_of_lt (lt_of_le_of_lt hp hpq)
      have hqt : ¬(q.1 = t) := by omega
      rw [if_pos hp, if_pos hq, if_neg hqt]
      have hall : ∀ s ∈ (q :: rest).map Prod.fst, t ≤ s := by
        intro s hsm
        rcases List.mem_map.mp hsm with ⟨r, hr, rfl⟩
        exact le_of_lt (lt_of_le_of_lt hp (sorted_head_lt hs r hr))
      rw [diffsT_correctFrom jv (q :: rest) t hs' (Or.inr hall)]
      congr 1
      simp only [Prod.mk.injEq]
      exact ⟨trivial, by omega⟩
    · have hpt : p.1 < t := by omega
      rcases ht with htm | hall
      · rw [List.map_cons] at htm
        rcases List.mem_cons.mp htm with h1 | htm'
        · exact absurd (le_of_eq h1) hp
        · by_cases hq : t = q.1
          · have hqle : t ≤ q.1 := le_of_eq hq
            rw [if_neg hp, if_pos hqle, if_pos hq.symm]
            rw [diffsT_correctFrom jv (q :: rest) t hs'
              (Or.inl (by rw [List.map_cons]; exact List.mem_cons.mpr (Or.inl hq)))]
            congr 1
            simp only [Prod.mk.injEq]
            exact ⟨trivial, by omega⟩
          · rw [List.map_cons] at htm'
            rcases List.mem_cons.mp htm' with h2 | htm'' 
            · omega
            · have hq1t : q.1 < t := by
                rcases List.mem_map.mp htm'' with ⟨r, hr, rfl⟩
                exact sorted_head_lt hs' r hr
              have hqle : ¬(t ≤ q.1) := by omega
              have hqt : ¬(q.1 = t) := by omega
              rw [if_neg hp, if_neg hqle, if_neg hqt]
              rw [diffsT_correctFrom jv (q :: rest) t hs'
                (Or.inl (by rw [List.map_cons]; exact List.mem_cons.mpr (Or.inr htm'')))]
      · exfalso
        have := hall p.1 (by rw [List.map_cons]; exact List.mem_cons_self _ _)
        omega

lemma nextAfter_mem_diffsT : ∀ {u : Series} {t : ℕ} {v : ℤ} {q : ℕ × ℤ},
    sortedSeries u → (t, v) ∈ u → nextAfter u t = some q →
    (q.1, q.2 - v) ∈ diffsT u
  | [], t, v, q, _, hm, _ => by cases hm
  | p :: l, t, v, q, hs, hm, hn => by
    by_cases hp : t < p.1
    · exfalso
      rcases List.mem_cons.mp hm with h1 | h2
      · have h1' : t = p.1 := congrArg Prod.fst h1
        omega
      · have := sorted_head_lt hs (t, v) h2
        omega
    · have hstep : nextAfter (p :: l) t = nextAfter l t := by
        simp [nextAfter, List.filter_cons, hp]
      rcases List.mem_cons.mp hm with h1 | h2
      · have hpt : p.1 = t := (congrArg Prod.fst h1).symm
        have hpv : p.2 = v := (congrArg Prod.snd h1).symm
        cases l with
        | nil =>
          rw [hstep] at hn
          simp [nextAfter] at hn
        | cons r l' =>
          have hfl : List.filter (fun x => decide (t < x.1)) (r :: l') = r :: l' := by
            rw [List.filter_eq_self]
            intro x hx
            have := sorted_head_lt hs x hx
            simp
            omega
          rw [hstep] at hn
          unfold nextAfter at hn
          rw [hfl] at hn
          simp at hn
          rw [diffsT_cons_cons, ← hn, ← hpv]
          exact List.mem_cons_self _ _
      · have := nextAfter_mem_diffsT (sorted_tail hs) h2 (hstep ▸ hn)
        exact diffsT_mem_cons this

lemma valAt_cons (a : ℕ × ℤ) (l : Series) (t : ℕ) :
    valAt (a :: l) t = if a.1 = t then a.2 else valAt l t := by
  by_cases h : a.1 = t <;> simp [valAt, List.filter_cons, h]

lemma valAt_sub_beforeVal : ∀ (u : Series) (t : ℕ) (d : ℤ),
    sortedSeries u → (t, d) ∈ diffsT u → valAt u t - beforeVal u t = d
  | [], t, d, _, hm => by cases hm
  | [p], t, d, _, hm => by cases hm
  | p :: q :: rest, t, d, hs, hm => by
    have hpq : p.1 < q.1 := sorted_head_lt hs q (List.mem_cons_self q rest)
    have hs' : sortedSeries (q :: rest) := sorted_tail hs
    rw [diffsT_cons_cons] at hm
    rcases List.mem_cons.mp hm with h1 | h2
    · -- the first difference: t = q.1, d = q.2 - p.2
      have ht : t = q.1 := congrArg Prod.fst h1
      have hd : d = q.2 - p.2 := congrArg Prod.snd h1
      subst ht
      have hrest : ∀ r ∈ rest, q.1 < r.1 := sorted_head_lt hs'
      have hval : valAt (p :: q :: rest) q.1 = q.2 := by
        rw [valAt_cons, if_neg (by omega), valAt_cons, if_pos rfl]
      have hbef : beforeVal (p :: q :: rest) q.1 = p.2 := by
        unfold beforeVal
        have hfr : List.filter (fun x => decide (x.1 ≤ q.1)) rest = [] := by
          rw [List.filter_eq_nil_iff]
          intro x hx
          have := hrest x hx
          simp
          omega
        rw [List.filter_cons, List.filter_cons,
          if_pos (by simp; omega), if_pos (by simp), hfr]
        rfl
      rw [hval, hbef, hd]
    · -- a later difference: recurse on (q :: rest)
      have htr : t ∈ (diffsT (q :: rest)).map Prod.fst := List.mem_map_of_mem Prod.fst h2
      rw [diffsT_map_fst] at htr
      have htrest : t ∈ rest.map Prod.fst := by simpa using htr
      obtain ⟨r, hr, hrt⟩ := List.mem_map.mp htrest
      have hq1t : q.1 < t := hrt ▸ sorted_head_lt hs' r hr
      have hp1t : p.1 < t := lt_trans hpq hq1t
      have hval : valAt (p :: q :: rest) t = valAt (q :: rest) t := by
        rw [valAt_cons, if_neg (by omega)]
      have hbef : beforeVal (p :: q :: rest) t = beforeVal (q :: rest) t := by
        unfold beforeVal
        rw [List.filter_cons, if_pos (by simp; omega)]
        have hlen : 2 ≤ (List.filter (fun x => decide (x.1 ≤ t)) (q :: rest)).length := by
          rw [List.filter_cons, if_pos (by simp; omega)]
          have hrf : r ∈ List.filter (fun x => decide (x.1 ≤ t)) rest :=
            List.mem_filter.mpr ⟨hr, by simp; omega⟩
          have h1 : 1 ≤ (List.filter (fun x => decide (x.1 ≤ t)) rest).length :=
            List.length_pos.mpr (List.ne_nil_of_mem hrf)
          simp
          omega
        rw [List.map_cons, List.reverse_cons, List.getD_append]
        rw [List.length_reverse, List.length_map]
        omega
      rw [hval, hbef]
      exact valAt_sub_beforeVal (q :: rest) t d hs' h2

lemma posCands_mem_self {T : ℤ} {u : Series} {c : ℕ × ℤ} (h : c ∈ posCands T u) :
    c ∈ u := by
  unfold posCands at h
  rcases List.mem_map.mp h with ⟨x, hx, rfl⟩
  exact consTriples_mem_snd (List.mem_of_mem_filter hx)

lemma goPos_keeps (T : ℤ) (u : Series) (hs : sortedSeries u)
    (H : ∀ p ∈ diffsT u, ¬(p.2 < -T)) :
    ∀ cands : List (ℕ × ℤ), (∀ c ∈ cands, c ∈ u) →
      goPos T cands u = none ∨ goPos T cands u = some u := by
  intro cands
  induction cands with
  | nil => exact fun _ => Or.inr rfl
  | cons c rest ih =>
    intro hc
    cases hn : nextAfter u c.1 with
    | none =>
      left
      simp [goPos, hn]
    | some q =>
      have hcu : c ∈ u := hc c (List.mem_cons_self c rest)
      have hcu' : (c.1, c.2) ∈ u := by
        rw [Prod.mk.eta]
        exact hcu
      have hdm : (q.1, q.2 - c.2) ∈ diffsT u := nextAfter_mem_diffsT hs hcu' hn
      have hnd : ¬(q.2 < c.2 - T) := by
        have := H _ hdm
        simp at this
        omega
      have hrec := ih (fun x hx => hc x (List.mem_cons_of_mem c hx))
      simpa [goPos, hn, if_neg hnd] using hrec

lemma negCands_eq_nil {T : ℤ} {u : Series} (H : ∀ p ∈ diffsT u, ¬(p.2 < -T)) :
    negCands T u = [] := by
  unfold negCands
  rw [List.map_eq_nil_iff, List.filter_eq_nil_iff]
  intro x hx
  have := H (x.1, x.2.2 - x.2.1) (List.mem_map_of_mem _ hx)
  simpa using this

lemma jumpListDown_eq_nil {T : ℤ} {u : Series} (H : ∀ p ∈ diffsT u, ¬(p.2 < -T)) :
    jumpListDown T u = [] := by
  unfold jumpListDown
  rw [List.filter_eq_nil_iff]
  intro p hp
  simpa using H p hp

/-- Claim C5: both discontinuity correctors read the first detected jump
before testing whether one exists.  The baseline step terminates normally
only when some consecutive difference is below -1000 mm, and on any sorted
series with no such difference it raises `IndexError` (`none`); the
reflector step returns `IndexError` exactly when no consecutive difference
exceeds +2500 mm. -/
theorem claim_C5 :
    (∀ u : Series, sortedSeries u → (∀ p ∈ diffsT u, ¬(p.2 < -1000)) →
      rtklibStep u = none)
    ∧ (∀ u : Series, gnssirStep u = none ↔ ∀ p ∈ diffsT u, ¬((2500 : ℤ) < p.2)) := by
  constructor
  · intro u hs H
    unfold rtklibStep filter_rtklib_jumpcorr
    rcases goPos_keeps 1000 u hs H (posCands 1000 u) (fun c hc => posCands_mem_self hc)
      with h | h
    · rw [h]
      rfl
    · rw [h, Option.some_bind, negCands_eq_nil H]
      have hg : goNeg 1000 ([] : List (ℕ × ℤ)) u = some u := rfl
      rw [hg, Option.some_bind, jumpListDown_eq_nil H]
  · intro u
    unfold gnssirStep filter_gnssir_jumpcorr
    cases hj : jumpListUp 2500 u with
    | nil =>
      constructor
      · intro _
        have := List.filter_eq_nil_iff.mp hj
        intro p hp
        simpa using this p hp
      · intro _
        rfl
    | cons a as =>
      constructor
      · intro habs
        exact absurd habs (Option.some_ne_none _)
      · intro hall
        exfalso
        have ha : a ∈ jumpListUp 2500 u := by
          rw [hj]
          exact List.mem_cons_self a as
        have h1 := List.mem_of_mem_filter ha
        have h2 := List.of_mem_filter ha
        have := hall a h1
        simp at h2
        exact this h2

/-- Witness for claim C5 at a concrete jump-free series. -/
theorem claim_C5_witness :
    rtklibStep [(0, 0), (1, 5)] = none ∧ gnssirStep [(0, 0), (1, 5)] = none := by
  constructor
  · exact claim_C5.1 [(0, 0), (1, 5)] (by decide) (by decide)
  · exact (claim_C5.2 [(0, 0), (1, 5)]).mpr (by decide)

lemma loopUp_fix (T jv : ℤ) (f : ℕ) {v : Series} (h : jumpListUp T v = []) :
    loopUp T jv f v = v := by
  cases f with
  | zero => rfl
  | succ f => simp [loopUp, h]

lemma jumpListUp_correctFrom (T : ℤ) {u : Series} {t : ℕ} {d : ℤ}
    (hT : 0 ≤ T) (hs : sortedSeries u) (h1 : jumpListUp T u = [(t, d)]) :
    jumpListUp T (correctFrom u t d) = [] := by
  have hmem : (t, d) ∈ diffsT u := by
    apply List.mem_of_mem_filter (p := fun p => decide (T < p.2))
    rw [show ((diffsT u).filter (fun p => decide (T < p.2))) = jumpListUp T u from rfl, h1]
    exact List.mem_cons_self _ _
  have htk : t ∈ u.map Prod.fst := mem_keys_of_mem_diffsT hmem
  unfold jumpListUp
  rw [diffsT_correctFrom d u t hs (Or.inl htk), List.filter_map, List.map_eq_nil_iff,
    List.filter_eq_nil_iff]
  intro x hx
  by_cases hxt : x.1 = t
  · have hxd : x.2 = d := by
      apply keys_nodup_val_eq (diffsT_keys_nodup hs) (a := t)
      · rw [← hxt, Prod.mk.eta]
        exact hx
      · exact hmem
    simp [Function.comp, hxt, hxd]
    omega
  · simp only [Function.comp_apply, if_neg hxt]
    intro hlt
    simp at hlt
    have hxj : x ∈ jumpListUp T u := List.mem_filter.mpr ⟨hx, by simpa using hlt⟩
    rw [h1] at hxj
    simp at hxj
    exact hxt (congrArg Prod.fst hxj)

/-- Claim C1: on a sorted series whose jump list holds exactly one
Discontinuity Event, the reflector corrector computes the event's magnitude
as (value directly after) minus (value directly before), subtracts it from
every observation at or after the event timestamp, and performs no other
correction. -/
theorem claim_C1 (T : ℤ) (u : Series) (t : ℕ) (d : ℤ)
    (hT : 0 ≤ T) (hs : sortedSeries u) (h1 : jumpListUp T u = [(t, d)]) :
    filter_gnssir_jumpcorr T u = some (correctFrom u t d)
      ∧ valAt u t - beforeVal u t = d := by
  have hmem : (t, d) ∈ diffsT u := by
    apply List.mem_of_mem_filter (p := fun p => decide (T < p.2))
    rw [show ((diffsT u).filter (fun p => decide (T < p.2))) = jumpListUp T u from rfl, h1]
    exact List.mem_cons_self _ _
  have hjv : valAt u t - beforeVal u t = d := valAt_sub_beforeVal u t d hs hmem
  refine ⟨?_, hjv⟩
  unfold filter_gnssir_jumpcorr
  rw [h1]
  simp only [hjv]
  congr 1
  rw [iterBoundUp]
  simp only [loopUp, h1]
  exact loopUp_fix T d _ (jumpListUp_correctFrom T hT hs h1)

/-- Witness for claim C1: the specification's example, threshold 500 — one
event between indices 3 and 4, magnitude 1000, output `[0,1,2,3,3,4,5]`. -/
theorem claim_C1_witness :
    filter_gnssir_jumpcorr 500 exJump
        = some [(0, 0), (1, 1), (2, 2), (3, 3), (4, 3), (5, 4), (6, 5)]
      ∧ jumpListUp 500 exJump = [(4, 1000)]
      ∧ valAt exJump 4 - beforeVal exJump 4 = 1000 := by
  have h := claim_C1 500 exJump 4 1000 (by decide) (by decide) (by decide)
  refine ⟨?_, by decide, h.2⟩
  rw [h.1]
  decide

/-- Claim C6: the outlier filter only drops observations.  Its output is a
sublist of its input — every retained (timestamp, value) pair is a pair of
the input, in the input's order, with its value unchanged — for every
window length, sigma multiplier and input series. -/
theorem claim_C6 :
    ∀ (W : ℕ) (k : ℝ) (u : QSeries),
      (filter_rolling_sigma W k u).Sublist u ∧ filter_rolling_sigma W k u ⊆ u := by
  intro W k u
  exact ⟨List.filter_sublist u, fun p hp => List.mem_of_mem_filter hp⟩

lemma getD_map_range {α : Type} (n : ℕ) (f : ℕ → α) (d : α) (i : ℕ) (hi : i < n) :
    ((List.range n).map f).getD i d = f i := by
  rw [List.getD_eq_getElem?_getD, List.getElem?_map, List.getElem?_range hi]
  rfl

/-- Claim C8: at every positive grid height, `func_err_prop_single` returns
exactly the specification's relative error `sqrt((sm/mass(h))^2 + (sh/h)^2)`
with `mass(h) = a*exp(b*h) + c`, and the absolute error is that relative
error times `density(h) = mass(h)/h`; `func_err_prop` is the row-wise
pairing of the four single evaluations. -/
theorem claim_C8 (a b c sm1 sm2 sm3 sm4 sh1 sh2 sh3 sh4 : ℝ) (i : ℕ)
    (hi : i < 1001) (hpos : 0 < i) :
    ((func_err_prop_single a b c sm1 sh1).getD i default).rel
        = spec_rel_err a b c sm1 sh1 (errGrid i)
      ∧ ((func_err_prop_single a b c sm1 sh1).getD i default).abs
        = spec_rel_err a b c sm1 sh1 (errGrid i) * spec_density a b c (errGrid i)
      ∧ ((func_err_prop_single a b c sm1 sh1).getD i default).h = errGrid i
      ∧ 0 < errGrid i
      ∧ (func_err_prop a b c sm1 sm2 sm3 sm4 sh1 sh2 sh3 sh4).getD i default
        = ((func_err_prop_single a b c sm1 sh1).getD i default,
           (func_err_prop_single a b c sm2 sh2).getD i default,
           (func_err_prop_single a b c sm3 sh3).getD i default,
           (func_err_prop_single a b c sm4 sh4).getD i default) := by
  have hgrid : 0 < errGrid i := by
    have hi' : (0 : ℝ) < i := by
      exact_mod_cast hpos
    unfold errGrid
    positivity
  have hrow : ∀ sm sh : ℝ, (func_err_prop_single a b c sm sh).getD i default
      = { h := errGrid i
          rel := Real.sqrt ((sm / func_exp (errGrid i) a b c) ^ 2 + (sh / errGrid i) ^ 2)
          abs := Real.sqrt ((sm / func_exp (errGrid i) a b c) ^ 2 + (sh / errGrid i) ^ 2)
            * (func_exp (errGrid i) a b c / errGrid i) } := by
    intro sm sh
    unfold func_err_prop_single
    rw [getD_map_range 1001 _ _ i hi]
  refine ⟨?_, ?_, ?_, hgrid, ?_⟩
  · rw [hrow]
    rfl
  · rw [hrow]
    rfl
  · rw [hrow]
  · unfold func_err_prop func_err_prop_single
    rw [List.zip_map', List.zip_map', List.zip_map']
    rw [getD_map_range 1001 _ _ i hi,
      getD_map_range 1001 _ _ i hi, getD_map_range 1001 _ _ i hi,
      getD_map_range 1001 _ _ i hi, getD_map_range 1001 _ _ i hi]

/-- Witness for claim C8 at the grid point i = 100 (height 1 m) with unit
parameters and unit uncertainties. -/
theorem claim_C8_witness :
    ((func_err_prop_single 1 1 1 1 1).getD 100 default).rel
      = spec_rel_err 1 1 1 1 1 (errGrid 100) :=
  (claim_C8 1 1 1 1 1 1 1 1 1 1 1 100 (by decide) (by decide)).1

lemma length_filterMap_all_some {α β : Type} (f : α → Option β) :
    ∀ l : List α, (∀ a ∈ l, (f a).isSome) → (l.filterMap f).length = l.length
  | [], _ => rfl
  | a :: l, h => by
    obtain ⟨b, hb⟩ := Option.isSome_iff_exists.mp (h a (List.mem_cons_self a l))
    rw [List.filterMap_cons, hb, List.length_cons, List.length_cons,
      length_filterMap_all_some f l (fun x hx => h x (List.mem_cons_of_mem a hx))]

/-- Claim C9: the daily aggregation of a nonempty sorted series spanning N
calendar days has exactly one row per day — holding the bucket median and
the bucket standard deviation — with empty days kept as `missing` rows, and
when every spanned day has at least one observation, even the
`dropna`-based `resample_gnss` keeps exactly N rows. -/
theorem claim_C9 (u : QSeries) (N : ℕ) (h0 : u ≠ [])
    (hs : (u.map Prod.fst).Pairwise (· < ·))
    (hspan : lastDay u + 1 = firstDay u + N) :
    (resampleDaily u).length = N
      ∧ (∀ i, i < N → (resampleDaily u).getD i (0, none, none)
          = (firstDay u + i, medianOpt (bucketVals u (firstDay u + i)),
             stdOpt (bucketVals u (firstDay u + i))))
      ∧ (∀ i, i < N → (firstDay u + i, medianOpt (bucketVals u (firstDay u + i)))
          ∈ resampleDailyMedian u)
      ∧ ((∀ i, i < N → bucketVals u (firstDay u + i) ≠ []) →
          (resample_gnss u).length = N) := by
  obtain ⟨p, rest, rfl⟩ : ∃ p rest, u = p :: rest := by
    cases u with
    | nil => exact absurd rfl h0
    | cons p rest => exact ⟨p, rest, rfl⟩
  have hN : lastDay (p :: rest) + 1 - firstDay (p :: rest) = N := by omega
  have hday : resampleDaily (p :: rest)
      = (List.range N).map (fun i => (firstDay (p :: rest) + i,
          medianOpt (bucketVals (p :: rest) (firstDay (p :: rest) + i)),
          stdOpt (bucketVals (p :: rest) (firstDay (p :: rest) + i)))) := by
    unfold resampleDaily
    rw [hN]
  have hmed : resampleDailyMedian (p :: rest)
      = (List.range N).map (fun i => (firstDay (p :: rest) + i,
          medianOpt (bucketVals (p :: rest) (firstDay (p :: rest) + i)))) := by
    unfold resampleDailyMedian
    rw [hN]
  refine ⟨?_, ?_, ?_, ?_⟩
  · rw [hday]
    simp
  · intro i hiN
    rw [hday]
    exact getD_map_range N _ _ i hiN
  · intro i hiN
    rw [hmed]
    exact List.mem_map_of_mem _ (List.mem_range.mpr hiN)
  · intro hfull
    unfold resample_gnss
    rw [hmed]
    rw [length_filterMap_all_some]
    · simp
    · intro a ha
      rcases List.mem_map.mp ha with ⟨i, hi, rfl⟩
      have hb := hfull i (List.mem_range.mp hi)
      unfold medianOpt
      cases hbv : bucketVals (p :: rest) (firstDay (p :: rest) + i) with
      | nil => exact absurd hbv hb
      | cons x xs => simp

/-- Witness for claim C9: three observations on two consecutive days give a
two-row daily aggregation, and `resample_gnss` also keeps both rows. -/
theorem claim_C9_witness :
    (resampleDaily exDaily).length = 2 ∧ (resample_gnss exDaily).length = 2 := by
  have h := claim_C9 exDaily 2 (by decide) (by decide) (by decide)
  exact ⟨h.1, h.2.2.2 (by decide)⟩

lemma densityDropna_mem {swe sh : OptSeries} {t : ℕ} {fv : FVal}
    (h : (t, fv) ∈ densityDropna swe sh) : densityCell swe sh t = some fv := by
  unfold densityDropna densityRaw at h
  rcases List.mem_filterMap.mp h with ⟨a, ha, hfa⟩
  rcases List.mem_map.mp ha with ⟨t0, _, rfl⟩
  cases hV : densityCell swe sh t0 with
  | none =>
    rw [hV] at hfa
    simp at hfa
  | some v =>
    rw [hV] at hfa
    simp at hfa
    rw [← hfa.1, ← hfa.2]
    exact hV

lemma convert_mem_range {swe sh : OptSeries} {p : ℕ × FVal}
    (h : p ∈ convert_swesh2density swe sh) :
    ∃ q : ℚ, p.2 = FVal.real q ∧ ¬(q < 50) ∧ ¬(830 ≤ q) := by
  have hpred := List.of_mem_filter h
  cases hv : p.2 with
  | posInf =>
    rw [hv] at hpred
    simp [fLtC, fGeC] at hpred
  | negInf =>
    rw [hv] at hpred
    simp [fLtC, fGeC] at hpred
  | real q =>
    rw [hv] at hpred
    simp [fLtC, fGeC] at hpred
    exact ⟨q, rfl, not_lt.mpr hpred.1, not_le.mpr hpred.2⟩

lemma densityCell_of_sh_degenerate {swe sh : OptSeries} {t : ℕ}
    (hsh : List.lookup t sh = none ∨ List.lookup t sh = some none) :
    densityCell swe sh t = none := by
  unfold densityCell
  rcases hsh with h | h <;> rw [h] <;>
    (cases List.lookup t swe with
     | none => rfl
     | some o => cases o <;> rfl)

/-- Claim C7 (as amended): dividing the mass series by the height series
yields `missing` at every bucket whose height is absent, NaN or zero (never
an infinity and never an exception), and every density outside [50, 830) is
discarded as `missing`; in particular mass 100 over height 0 yields
`missing`, and mass 10 over height 1.0 yields the raw density 10000 — the
estimator multiplies mass by 1000 before dividing — which is dropped to
`missing` for lying at or above the ceiling, not below the floor. -/
theorem claim_C7 :
    (∀ (swe sh : OptSeries) (t : ℕ) (fv : FVal),
        (List.lookup t sh = none ∨ List.lookup t sh = some none
          ∨ List.lookup t sh = some (some 0)) →
        (t, fv) ∉ convert_swesh2density swe sh)
      ∧ (∀ (swe sh : OptSeries) (p : ℕ × FVal), p ∈ convert_swesh2density swe sh →
          ∃ q : ℚ, p.2 = FVal.real q ∧ ¬(q < 50) ∧ ¬(830 ≤ q))
      ∧ convert_swesh2density [(0, some 100)] [(0, some 0)] = []
      ∧ densityRaw [(0, some 10)] [(0, some 1)] = [(0, some (FVal.real 10000))]
      ∧ convert_swesh2density [(0, some 10)] [(0, some 1)] = [] := by
  have hku1 : keysUnion [((0 : ℕ), some (100 : ℚ))] [((0 : ℕ), some (0 : ℚ))] = [0] := by
    decide
  have hku2 : keysUnion [((0 : ℕ), some (10 : ℚ))] [((0 : ℕ), some (1 : ℚ))] = [0] := by
    decide
  have hcell1 : densityCell [((0 : ℕ), some (100 : ℚ))] [((0 : ℕ), some (0 : ℚ))] 0
      = some FVal.posInf := by
    show fdiv (100 * 1000) 0 = some FVal.posInf
    norm_num [fdiv]
  have hcell2 : densityCell [((0 : ℕ), some (10 : ℚ))] [((0 : ℕ), some (1 : ℚ))] 0
      = some (FVal.real 10000) := by
    show fdiv (10 * 1000) 1 = some (FVal.real 10000)
    norm_num [fdiv]
  refine ⟨?_, fun swe sh p h => convert_mem_range h, ?_, ?_, ?_⟩
  · intro swe sh t fv hsh hmem
    obtain ⟨q, hq, h50, h830⟩ := convert_mem_range hmem
    have hfv : fv = FVal.real q := hq
    have hcell := densityDropna_mem (List.mem_of_mem_filter hmem)
    rcases hsh with h | h | h
    · rw [densityCell_of_sh_degenerate (Or.inl h)] at hcell
      exact absurd hcell (by simp)
    · rw [densityCell_of_sh_degenerate (Or.inr h)] at hcell
      exact absurd hcell (by simp)
    · unfold densityCell at hcell
      rw [h] at hcell
      cases hsw : List.lookup t swe with
      | none =>
        rw [hsw] at hcell
        simp at hcell
      | some o =>
        cases o with
        | none =>
          rw [hsw] at hcell
          simp at hcell
        | some aq =>
          rw [hsw, hfv] at hcell
          have hcell' : fdiv (aq * 1000) 0 = some (FVal.real q) := hcell
          unfold fdiv at hcell'
          rw [if_pos rfl] at hcell'
          split_ifs at hcell' <;> simp at hcell'
  · unfold convert_swesh2density densityDropna densityRaw
    rw [hku1]
    simp [hcell1, fLtC, fGeC]
  · unfold densityRaw
    rw [hku2]
    simp [hcell2]
  · unfold convert_swesh2density densityDropna densityRaw
    rw [hku2]
    have h830 : ((830 : ℚ) ≤ 10000) := by norm_num
    simp [hcell2, fLtC, fGeC, h830]

/-- Counterexample to claim C7 as stated: mass 10 over height 1.0 gives the
raw density 10000, which is NOT below the fresh-snow floor of 50 (the range
check drops it for being at or above 830 instead). -/
theorem claim_C7_counterexample :
    densityRaw [(0, some 10)] [(0, some 1)] = [(0, some (FVal.real 10000))]
      ∧ ¬((10000 : ℚ) < 50)
      ∧ fLtC (FVal.real 10000) 50 = false
      ∧ fGeC (FVal.real 10000) 830 = true
      ∧ convert_swesh2density [(0, some 10)] [(0, some 1)] = [] := by
  have hku : keysUnion [((0 : ℕ), some (10 : ℚ))] [((0 : ℕ), some (1 : ℚ))] = [0] := by
    decide
  have hcell : densityCell [((0 : ℕ), some (10 : ℚ))] [((0 : ℕ), some (1 : ℚ))] 0
      = some (FVal.real 10000) := by
    show fdiv (10 * 1000) 1 = some (FVal.real 10000)
    norm_num [fdiv]
  refine ⟨?_, by norm_num, ?_, ?_, ?_⟩
  · unfold densityRaw
    rw [hku]
    simp [hcell]
  · norm_num [fLtC]
  · norm_num [fGeC]
  · unfold convert_swesh2density densityDropna densityRaw
    rw [hku]
    have h830 : ((830 : ℚ) ≤ 10000) := by norm_num
    simp [hcell, fLtC, fGeC, h830]

/-- Claim C10: for every recognized model string, when the optimizer cannot
converge (`curve_fit` raises), `exponential_regression` surfaces exactly
that typed error to its caller and never returns the silent zero result
`[0, 0, 0]` (which only the unrecognized-function branch produces). -/
theorem claim_C10 (function : String) (cf : Except FitError (List ℝ))
    (x_data : List ℝ) (e : FitError)
    (hfn : function = ("a * exp(b * x) + c") ∨ function = ("a * exp(b * x)")
      ∨ function = ("std/sqrt(n)"))
    (herr : cf = Except.error e) :
    exponential_regression function cf x_data = ExpRegResult.raised e
      ∧ exponential_regression function cf x_data ≠ ExpRegResult.zeroModel := by
  subst herr
  have hmain : exponential_regression function (Except.error e) x_data
      = ExpRegResult.raised e := by
    rcases hfn with h | h | h <;> subst h <;> simp [exponential_regression]
  refine ⟨hmain, ?_⟩
  rw [hmain]
  intro habs
  cases habs

/-- Witness for claim C10: a failed fit of the anchored exponential model is
returned as the optimizer's error, not as a zero model. -/
theorem claim_C10_witness :
    exponential_regression ("a * exp(b * x) + c")
        (Except.error FitError.runtimeError) []
      = ExpRegResult.raised FitError.runtimeError :=
  (claim_C10 ("a * exp(b * x) + c") (Except.error FitError.runtimeError) []
    FitError.runtimeError (Or.inl rfl) rfl).1
